import Mathlib

/-
  Verification of the CodeCast segmented narration playback and export engine.

  Shallow embedding of:
  - src/services/geminiService.ts : decode (atob wrapper), createAudioBufferFromPCM,
    generateAudioSegments,
  - src/App.tsx : playSegment / playAudio / pauseAudio / stopAudio, the onended
    auto-advance handler, handleSubmit's buffer construction with the silence
    fallback, and handleExportVideo with its re-entry guard and per-segment loop.

  Machine integers are modelled as Nat/Int, audio sample values as rationals,
  wall-clock / AudioContext times as rationals, and the fallible browser calls
  (atob, Int16Array construction, createBuffer) as Except values whose error
  constructors stand for the exceptions those platform calls throw.
-/

/-! ## PCM decoder (src/services/geminiService.ts)

`decode` calls the platform `atob`, whose behaviour is the WHATWG
forgiving-base64 decode: strip ASCII whitespace, drop up to two trailing `=`
when the length is a multiple of 4, reject a remaining length of 1 mod 4 and
any character outside the base64 alphabet, then emit 3 bytes per 4 sextets
(2 or 1 bytes from a trailing group of 3 or 2 sextets, low bits discarded). -/

/-- ASCII whitespace stripped by forgiving-base64 (TAB, LF, FF, CR, SPACE). -/
def isB64Ws (c : Char) : Bool :=
  c.toNat = 9 || c.toNat = 10 || c.toNat = 12 || c.toNat = 13 || c.toNat = 32

/-- Value of a character in the base64 alphabet, `none` outside it. -/
def b64CharVal (c : Char) : Option Nat :=
  let n := c.toNat
  if 65 ≤ n ∧ n ≤ 90 then some (n - 65)
  else if 97 ≤ n ∧ n ≤ 122 then some (n - 97 + 26)
  else if 48 ≤ n ∧ n ≤ 57 then some (n - 48 + 52)
  else if n = 43 then some 62
  else if n = 47 then some 63
  else none

/-- Remove up to two trailing `=` characters (forgiving-base64 step 2). -/
def stripPadding (cs : List Char) : List Char :=
  match cs.reverse with
  | '=' :: '=' :: t => t.reverse
  | '=' :: t => t.reverse
  | _ => cs

/-- Option-valued map over a list, failing when any element fails. -/
def mapOpt (f : α → Option β) : List α → Option (List β)
  | [] => some []
  | a :: as =>
    match f a with
    | none => none
    | some b =>
      match mapOpt f as with
      | none => none
      | some bs => some (b :: bs)

/-- Reassemble bytes from base64 sextet values: 4 sextets give 3 bytes, a
trailing group of 3 gives 2 bytes and a group of 2 gives 1 byte (forgiving
base64 discards the leftover low bits). A singleton group is unreachable
because `atob` rejects lengths of 1 mod 4. -/
def b64Bytes : List Nat → List Nat
  | a :: b :: c :: d :: rest =>
      (a * 4 + b / 16) :: ((b % 16) * 16 + c / 4) :: ((c % 4) * 64 + d) :: b64Bytes rest
  | [a, b] => [a * 4 + b / 16]
  | [a, b, c] => [a * 4 + b / 16, (b % 16) * 16 + c / 4]
  | [] => []
  | [_] => []

/-- The platform `atob` used by `decode` in geminiService.ts (forgiving-base64).
`none` models the `InvalidCharacterError` it throws on malformed input. -/
def atob (s : String) : Option (List Nat) :=
  let cs0 := s.toList.filter (fun c => !isB64Ws c)
  let cs := if cs0.length % 4 = 0 then stripPadding cs0 else cs0
  if cs.length % 4 = 1 then none
  else
    match mapOpt b64CharVal cs with
    | none => none
    | some vs => some (b64Bytes vs)

/-- Reading of a 16-bit word as a signed (two's complement) integer, as done
by an `Int16Array` element access. -/
def toSigned16 (n : Nat) : Int :=
  if n < 32768 then (n : Int) else (n : Int) - 65536

/-- The `new Int16Array(bytes.buffer)` element view: consecutive little-endian
byte pairs as signed 16-bit integers. -/
def int16OfBytes : List Nat → List Int
  | lo :: hi :: rest => toSigned16 (lo + 256 * hi) :: int16OfBytes rest
  | _ => []

/-- Exceptions thrown inside `createAudioBufferFromPCM`: `malformedBase64`
stands for atob's `InvalidCharacterError`, `oddByteLength` for the
`RangeError` thrown by the `Int16Array` view over a buffer whose byte length
is not a multiple of 2, and `emptyBuffer` for the `NotSupportedError` thrown
by `ctx.createBuffer` when the frame count is zero. -/
inductive PCMError
  | malformedBase64
  | oddByteLength
  | emptyBuffer
deriving DecidableEq, Repr

/-- An AudioBuffer: mono channel data as rational samples plus its rate. -/
structure AudioBuffer where
  numberOfChannels : Nat
  samples : List ℚ
  sampleRate : Nat
deriving DecidableEq, Repr

/-- The `buffer.duration` of the Web Audio API: frame count over sample rate. -/
def AudioBuffer.duration (b : AudioBuffer) : ℚ :=
  (b.samples.length : ℚ) / (b.sampleRate : ℚ)

/-- Function `createAudioBufferFromPCM` of geminiService.ts: base64-decode the payload,
view it as little-endian signed 16-bit mono frames, and fill an AudioBuffer
with each frame divided by 32768.0 (numChannels = 1, so frameCount is the
Int16Array length). -/
def createAudioBufferFromPCM (base64Data : String) (sampleRate : Nat) :
    Except PCMError AudioBuffer :=
  match atob base64Data with
  | none => .error .malformedBase64
  | some bytes =>
    if bytes.length % 2 = 1 then .error .oddByteLength
    else
      let dataInt16 := int16OfBytes bytes
      if dataInt16.length = 0 then .error .emptyBuffer
      else
        .ok { numberOfChannels := 1
              samples := dataInt16.map (fun (v : Int) => (v : ℚ) / 32768)
              sampleRate := sampleRate }

/-! ## Segment registry (generateAudioSegments + handleSubmit buffer building) -/

/-- A tutorial step (types.ts `ExplanationStep`). -/
structure ExplanationStep where
  lineCode : String
  explanation : String
deriving DecidableEq, Repr

/-- A tutorial document (types.ts `TutorialData`). -/
structure TutorialData where
  title : String
  language : String
  code : String
  overview : String
  steps : List ExplanationStep
deriving DecidableEq, Repr

/-- Per-segment result of `generateSegment` in geminiService.ts, given an
oracle `tts` for the network TTS call: `tts text = none` models a thrown
error or a response with no inline data (both caught / collapsed to `null`),
and `response...data || null` additionally maps an empty payload to `null`. -/
def ttsPayload (tts : String → Option String) (text : String) : Option String :=
  match tts text with
  | some d => if d = "" then none else some d
  | none => none

/-- Function `generateAudioSegments` of geminiService.ts: one payload per segment,
segment 0 from `data.overview` and segment i+1 from `data.steps[i].explanation`,
in document order. -/
def generateAudioSegments (tts : String → Option String) (data : TutorialData) :
    List (Option String) :=
  (data.overview :: data.steps.map (fun st => st.explanation)).map (ttsPayload tts)

/-- The silence fallback of handleSubmit (App.tsx line 76):
`ctx.createBuffer(1, 2 * 24000, 24000)`, a 2-second zero buffer at 24000 Hz. -/
def silence2s : AudioBuffer :=
  { numberOfChannels := 1, samples := List.replicate (2 * 24000) 0, sampleRate := 24000 }

/-- One arm of handleSubmit's buffer map (App.tsx lines 70-78): a truthy
payload is decoded, a `null` or empty payload becomes the silence fallback. -/
def segmentBuffer (b64 : Option String) : Except PCMError AudioBuffer :=
  match b64 with
  | some b => if b = "" then .ok silence2s else createAudioBufferFromPCM b 24000
  | none => .ok silence2s

/-- handleSubmit's `Promise.all(audioBase64s.map ...)`: all segment buffers,
rejecting with the first decode exception (which the surrounding try/catch of
handleSubmit then turns into the fatal ERROR state). -/
def buildBuffers : List (Option String) → Except PCMError (List AudioBuffer)
  | [] => .ok []
  | ob :: rest =>
    match segmentBuffer ob with
    | .error e => .error e
    | .ok b =>
      match buildBuffers rest with
      | .error e => .error e
      | .ok bs => .ok (b :: bs)

/-- Observable outcome of handleSubmit after audio generation: either the
READY state holding the decoded buffers (followed by auto-play), or the
catch-all branch that surfaces a fatal error for the submission. -/
inductive SubmitOutcome
  | ready (buffers : List AudioBuffer)
  | fatalError
deriving DecidableEq, Repr

/-- handleSubmit (App.tsx lines 59-90) restricted to the buffer-building part:
a rejection of the decode `Promise.all` is caught by the outer catch and
surfaces as the ERROR state. -/
def submitOutcome (b64s : List (Option String)) : SubmitOutcome :=
  match buildBuffers b64s with
  | .ok bufs => .ready bufs
  | .error _ => .fatalError

/-! ## Timeline playback engine (App.tsx)

State of the transport refs and React state: `isPlaying`, `currentStepIndex`,
`audioSourceRef` (modelled as the id of the live `AudioBufferSourceNode`,
`none` when cleared), `startTimeRef`, `pauseOffsetRef`, `activeBufferIndexRef`.
`nextSourceId` is the supply of fresh node identities: `ctx.createBufferSource()`
always returns a node distinct (by `===`) from every earlier one. -/

structure EngineState where
  isPlaying : Bool
  currentStepIndex : Nat
  audioSource : Option Nat
  startTime : ℚ
  pauseOffset : ℚ
  activeBufferIndex : Nat
  nextSourceId : Nat
deriving DecidableEq, Repr

/-- The state set up by handleSubmit's reset block / initial render. -/
def initState : EngineState :=
  { isPlaying := false, currentStepIndex := 0, audioSource := none,
    startTime := 0, pauseOffset := 0, activeBufferIndex := 0, nextSourceId := 0 }

/-- Function `playSegment` (App.tsx lines 100-133) at AudioContext time `now`.
Out-of-range index: reset to the ended state and return. Otherwise create a
fresh source for `bufs[index]`, start it at `offset`, record
`startTime = now - offset`, publish the live source and the new index. -/
def playSegment (bufs : List AudioBuffer) (index : Nat) (offset : ℚ) (now : ℚ)
    (s : EngineState) : EngineState :=
  if bufs.length ≤ index then
    { s with isPlaying := false, activeBufferIndex := 0,
             currentStepIndex := 0, pauseOffset := 0 }
  else
    { s with startTime := now - offset,
             audioSource := some s.nextSourceId,
             nextSourceId := s.nextSourceId + 1,
             activeBufferIndex := index,
             currentStepIndex := index,
             isPlaying := true }

/-- Function `playAudio` (App.tsx lines 135-138): resume from the current segment and
pause offset. -/
def playAudio (bufs : List AudioBuffer) (now : ℚ) (s : EngineState) : EngineState :=
  playSegment bufs s.activeBufferIndex s.pauseOffset now s

/-- Function `pauseAudio` (App.tsx lines 140-157) at AudioContext time `now`. Guarded
by a live source (whenever a source is live the context exists, since
playSegment created it). Stops the source, computes
`pauseOffset = now - startTime`; if that exceeds the current buffer's duration
(`?.duration || 0`, so 0 for a missing buffer) the offset resets to 0 and the
active index advances by one; the source ref is cleared and playing ends. -/
def pauseAudio (bufs : List AudioBuffer) (now : ℚ) (s : EngineState) : EngineState :=
  match s.audioSource with
  | none => s
  | some _ =>
    let off := now - s.startTime
    let dur := ((bufs.get? s.activeBufferIndex).map AudioBuffer.duration).getD 0
    if dur < off then
      { s with pauseOffset := 0, activeBufferIndex := s.activeBufferIndex + 1,
               audioSource := none, isPlaying := false }
    else
      { s with pauseOffset := off, audioSource := none, isPlaying := false }

/-- Function `stopAudio` (App.tsx lines 159-171): clear the source ref first (so the
onended callback of the stopped node finds a cleared ref), stop the node, and
reset index, step and offset. -/
def stopAudio (s : EngineState) : EngineState :=
  { s with audioSource := none, isPlaying := false, activeBufferIndex := 0,
           currentStepIndex := 0, pauseOffset := 0 }

/-- The reset performed by playSegment's out-of-range guard: the Ended state
of the spec (index 0, offset 0, not playing). -/
def endedReset (s : EngineState) : EngineState :=
  { s with isPlaying := false, activeBufferIndex := 0,
           currentStepIndex := 0, pauseOffset := 0 }

/-- Engine-level events. The first four are the synchronous transport
operations reachable from the UI handlers (`handleTogglePlay` dispatches to
play/pause, `handleDeepDive` auto-pauses, `handleReplay` is stop-then-play,
and handleSubmit's reset block performs `stopAudio`). `ended sid idx` is the
asynchronous completion callback of source `sid`, whose closure captured the
segment index `idx` at schedule time (App.tsx lines 126-132); it runs on the
event loop strictly after whichever synchronous block scheduled it. -/
inductive EngineEvent
  | play (now : ℚ)
  | pause (now : ℚ)
  | stop
  | replay (now : ℚ)
  | ended (sid : Nat) (idx : Nat) (now : ℚ)
deriving DecidableEq, Repr

/-- One event step. The `ended` handler is the identity check of App.tsx
line 128: only when the completed source is still the live ref does it
auto-advance to `playSegment (idx + 1, 0)`. -/
def stepE (bufs : List AudioBuffer) : EngineEvent → EngineState → EngineState
  | .play t, s => playAudio bufs t s
  | .pause t, s => pauseAudio bufs t s
  | .stop, s => stopAudio s
  | .replay t, s => playAudio bufs t (stopAudio s)
  | .ended sid idx t, s =>
    if s.audioSource = some sid then playSegment bufs (idx + 1) 0 t s else s

/-- Run a list of events in order. -/
def runE (bufs : List AudioBuffer) : List EngineEvent → EngineState → EngineState
  | [], s => s
  | e :: es, s => runE bufs es (stepE bufs e s)

/-- The natural completion of the currently playing source: its `onended`
fires with the identity and index it captured when scheduled. -/
def naturalEnd (bufs : List AudioBuffer) (t : ℚ) (s : EngineState) : EngineState :=
  match s.audioSource with
  | some sid => stepE bufs (.ended sid s.activeBufferIndex t) s
  | none => s

/-- A run in which each scheduled segment completes naturally, one completion
per listed time. -/
def runCompletions (bufs : List AudioBuffer) : List ℚ → EngineState → EngineState
  | [], s => s
  | t :: ts, s => runCompletions bufs ts (naturalEnd bufs t s)

/-- The engine is playing segment `j`: shape of every state produced by
playSegment's in-range branch during an uninterrupted natural run. -/
def PlayingShape (j : Nat) (s : EngineState) : Prop :=
  s.isPlaying = true ∧ s.activeBufferIndex = j ∧ s.currentStepIndex = j ∧
  s.pauseOffset = 0 ∧ s.audioSource.isSome = true

/-- The Ended state of the spec: selection at segment 0, offset 0, stopped. -/
def EndedShape (s : EngineState) : Prop :=
  s.isPlaying = false ∧ s.activeBufferIndex = 0 ∧ s.currentStepIndex = 0 ∧
  s.pauseOffset = 0

/-- Source `sid` is stale in `s`: it was handed out earlier (below the fresh
supply) and is no longer the live ref. -/
def StaleFor (sid : Nat) (s : EngineState) : Prop :=
  sid < s.nextSourceId ∧ s.audioSource ≠ some sid

/-! ## Capture/export orchestrator (handleExportVideo, App.tsx lines 206-322) -/

/-- MediaRecorder lifecycle state. -/
inductive RecorderState
  | inactive
  | recording
  | paused
deriving DecidableEq, Repr

/-- Application state touched by the export path: the playback engine state,
the `isExporting` flag, the recorder, the accumulated chunks (flushed by
`ondataavailable`, which without a timeslice fires only at `recorder.stop()`)
and the delivered artifact (the Blob handed to the download link by `onstop`). -/
structure AppState where
  engine : EngineState
  isExporting : Bool
  recorder : RecorderState
  chunks : List Nat
  delivered : Option (List Nat)
deriving DecidableEq, Repr

/-- The per-segment export loop (App.tsx lines 250-302) over the listed step
indices (the `for` loop runs it over 0, 1, ..., totalSteps-1), driven by the
oracle `renderOk i` telling whether step `i`'s awaited render/snapshot
succeeds. Each iteration publishes step `i`, pauses the recorder across the
render wait and snapshot, then resumes it and plays the segment's audio into
the capture stream (local source nodes, so the engine refs are untouched).
If the awaited snapshot rejects, the async function aborts there: the partial
state at the point of failure is returned on the error side and nothing after
it runs. -/
def exportSteps (renderOk : Nat → Bool) : List Nat → AppState → Except AppState AppState
  | [], st => .ok st
  | i :: rest, st =>
    let st1 := { st with engine := { st.engine with currentStepIndex := i },
                         recorder := RecorderState.paused }
    if renderOk i then
      exportSteps renderOk rest { st1 with recorder := RecorderState.recording }
    else .error st1

/-- Function `handleExportVideo` (App.tsx lines 206-322). Guard: no export container,
an export already in flight, or no tutorial data is an early return. Otherwise
stop interactive playback, raise `isExporting`, start the recorder, run the
per-segment loop over `steps.length + 1` segments, and on normal completion
stop the recorder, whose `onstop` delivers the assembled Blob (`recData`
abstracts its content), clears `isExporting` and resets the selection to
segment 0. A loop failure is an uncaught rejection: the function simply stops
there and the failure-point state persists. -/
def handleExportVideo (hasContainer : Bool) (tut : Option TutorialData)
    (renderOk : Nat → Bool) (recData : Nat) (app : AppState) : AppState :=
  if !hasContainer || app.isExporting || tut.isNone then app
  else
    match tut with
    | none => app
    | some data =>
      let st0 : AppState :=
        { app with engine := stopAudio app.engine, isExporting := true,
                   recorder := RecorderState.recording }
      match exportSteps renderOk (List.range (data.steps.length + 1)) st0 with
      | .error stF => stF
      | .ok stD =>
        let engine1 := { stD.engine with currentStepIndex := 0, activeBufferIndex := 0 }
        { stD with recorder := RecorderState.inactive,
                   chunks := [recData],
                   delivered := some [recData],
                   isExporting := false,
                   engine := engine1 }

/-! ## Basic facts -/

theorem AudioBuffer.duration_nonneg (b : AudioBuffer) : 0 ≤ b.duration :=
  div_nonneg (Nat.cast_nonneg _) (Nat.cast_nonneg _)

/-! ## Staleness of superseded sources (claim C1) -/

theorem playSegment_stale {sid : Nat} (bufs : List AudioBuffer) (i : Nat) (off t : ℚ)
    (s : EngineState) (h : StaleFor sid s) : StaleFor sid (playSegment bufs i off t s) := by
  obtain ⟨h1, h2⟩ := h
  unfold playSegment
  split
  · exact ⟨h1, h2⟩
  · constructor
    · show sid < s.nextSourceId + 1
      omega
    · show some s.nextSourceId ≠ some sid
      simp only [ne_eq, Option.some.injEq]
      omega

theorem stopAudio_stale {sid : Nat} (s : EngineState) (h1 : sid < s.nextSourceId) :
    StaleFor sid (stopAudio s) :=
  ⟨h1, by simp [stopAudio]⟩

/-- pauseAudio either clears the source ref (live-source branch) or is the
guarded no-op, which only happens when no source is live; it never touches
the fresh-id supply. -/
theorem pauseAudio_cases (bufs : List AudioBuffer) (t : ℚ) (s : EngineState) :
    ((pauseAudio bufs t s).audioSource = none ∧
     (pauseAudio bufs t s).nextSourceId = s.nextSourceId) ∨
    (pauseAudio bufs t s = s ∧ s.audioSource = none) := by
  unfold pauseAudio
  cases hs : s.audioSource with
  | none => exact Or.inr ⟨rfl, rfl⟩
  | some sid' =>
    left
    dsimp only
    split
    · exact ⟨rfl, rfl⟩
    · exact ⟨rfl, rfl⟩

theorem pauseAudio_stale {sid : Nat} (bufs : List AudioBuffer) (t : ℚ) (s : EngineState)
    (h1 : sid < s.nextSourceId) : StaleFor sid (pauseAudio bufs t s) := by
  rcases pauseAudio_cases bufs t s with ⟨ha, hn⟩ | ⟨heq, ha⟩
  · exact ⟨by rw [hn]; exact h1, by rw [ha]; simp⟩
  · rw [heq]
    exact ⟨h1, by simp [ha]⟩

theorem stepE_stale {sid : Nat} (bufs : List AudioBuffer) (e : EngineEvent)
    (s : EngineState) (h : StaleFor sid s) : StaleFor sid (stepE bufs e s) := by
  cases e with
  | play t => exact playSegment_stale bufs _ _ t s h
  | pause t => exact pauseAudio_stale bufs t s h.1
  | stop => exact stopAudio_stale s h.1
  | replay t =>
    show StaleFor sid (playSegment bufs _ _ t (stopAudio s))
    exact playSegment_stale bufs _ _ t _ (stopAudio_stale s h.1)
  | ended sid' idx t =>
    simp only [stepE]
    split
    · exact playSegment_stale bufs _ _ t s h
    · exact h

theorem runE_stale {sid : Nat} (bufs : List AudioBuffer) :
    ∀ (tr : List EngineEvent) (s : EngineState),
      StaleFor sid s → StaleFor sid (runE bufs tr s)
  | [], _, h => h
  | e :: es, s, h => runE_stale bufs es _ (stepE_stale bufs e s h)

/-- Claim C1: if a segment's audio source is stopped or superseded (by
stopAudio, pauseAudio, or a new submission — whose reset block runs stopAudio,
here the `stop`/`pause`/`replay` events) before its completion callback fires,
that stale completion never triggers auto-advance: after the superseding
operation and any further interleaving of transport operations, the superseded
source is never again the live ref, so its `ended` callback is inert — only
the completion of the currently scheduled source can call playSegment for the
next index. -/
theorem stale_completion_never_advances (bufs : List AudioBuffer) (s : EngineState)
    (sid : Nat) (hlive : s.audioSource = some sid) (hfresh : sid < s.nextSourceId)
    (e : EngineEvent)
    (he : e = .stop ∨ (∃ t, e = .pause t) ∨ (∃ t, e = .replay t))
    (tr : List EngineEvent) (idx : Nat) (t : ℚ) :
    (runE bufs tr (stepE bufs e s)).audioSource ≠ some sid ∧
    stepE bufs (.ended sid idx t) (runE bufs tr (stepE bufs e s)) =
      runE bufs tr (stepE bufs e s) := by
  have hst : StaleFor sid (stepE bufs e s) := by
    rcases he with rfl | ⟨t', rfl⟩ | ⟨t', rfl⟩
    · exact stopAudio_stale s hfresh
    · exact pauseAudio_stale bufs t' s hfresh
    · show StaleFor sid (playSegment bufs _ _ t' (stopAudio s))
      exact playSegment_stale bufs _ _ t' _ (stopAudio_stale s hfresh)
  have h2 := runE_stale bufs tr _ hst
  refine ⟨h2.2, ?_⟩
  simp only [stepE]
  exact if_neg h2.2

def c1state : EngineState := { initState with audioSource := some 0, nextSourceId := 1 }

theorem stale_completion_never_advances_witness :
    c1state.audioSource = some 0 ∧ 0 < c1state.nextSourceId ∧
    ((runE [silence2s] [EngineEvent.play 3] (stepE [silence2s] EngineEvent.stop c1state)).audioSource ≠ some 0 ∧
     stepE [silence2s] (.ended 0 5 7)
         (runE [silence2s] [EngineEvent.play 3] (stepE [silence2s] EngineEvent.stop c1state)) =
       runE [silence2s] [EngineEvent.play 3] (stepE [silence2s] EngineEvent.stop c1state)) :=
  ⟨rfl, Nat.zero_lt_one,
    stale_completion_never_advances [silence2s] c1state 0 rfl Nat.zero_lt_one
      EngineEvent.stop (Or.inl rfl) [EngineEvent.play 3] 5 7⟩

/-- Claim C3: pause() from Playing(i, t0) stops output and computes
`offset = now - t0` landing in [0, duration(i)]: when `now - t0` does not
exceed the duration the engine is Paused(i, now - t0); when it would exceed
the duration, the active index advances by one and the offset resets to 0. -/
theorem pause_offset_clamped (bufs : List AudioBuffer) (s : EngineState) (now : ℚ)
    (b : AudioBuffer)
    (hlive : s.audioSource.isSome = true)
    (hbuf : bufs.get? s.activeBufferIndex = some b)
    (hmono : s.startTime ≤ now) :
    (pauseAudio bufs now s).isPlaying = false ∧
    (pauseAudio bufs now s).audioSource = none ∧
    0 ≤ (pauseAudio bufs now s).pauseOffset ∧
    (pauseAudio bufs now s).pauseOffset ≤ b.duration ∧
    (now - s.startTime ≤ b.duration →
      (pauseAudio bufs now s).activeBufferIndex = s.activeBufferIndex ∧
      (pauseAudio bufs now s).pauseOffset = now - s.startTime) ∧
    (b.duration < now - s.startTime →
      (pauseAudio bufs now s).activeBufferIndex = s.activeBufferIndex + 1 ∧
      (pauseAudio bufs now s).pauseOffset = 0) := by
  obtain ⟨sid, hs⟩ := Option.isSome_iff_exists.mp hlive
  unfold pauseAudio
  rw [hs]
  simp only [hbuf, Option.map_some, Option.getD_some]
  split
  case isTrue hcl =>
    refine ⟨rfl, rfl, le_refl 0, b.duration_nonneg, ?_, ?_⟩
    · intro hle
      exact absurd hcl (not_lt.mpr hle)
    · intro _
      exact ⟨rfl, rfl⟩
  case isFalse hcl =>
    refine ⟨rfl, rfl, ?_, not_lt.mp hcl, ?_, ?_⟩
    · show 0 ≤ now - s.startTime
      linarith
    · intro _
      exact ⟨rfl, rfl⟩
    · intro hgt
      exact absurd hgt hcl

def c3state : EngineState := playSegment [silence2s] 0 0 0 initState

theorem pause_offset_clamped_witness :
    c3state.audioSource.isSome = true ∧
    [silence2s].get? c3state.activeBufferIndex = some silence2s ∧
    c3state.startTime ≤ 1 ∧
    ((pauseAudio [silence2s] 1 c3state).isPlaying = false ∧
     (pauseAudio [silence2s] 1 c3state).audioSource = none ∧
     0 ≤ (pauseAudio [silence2s] 1 c3state).pauseOffset ∧
     (pauseAudio [silence2s] 1 c3state).pauseOffset ≤ silence2s.duration ∧
     (1 - c3state.startTime ≤ silence2s.duration →
       (pauseAudio [silence2s] 1 c3state).activeBufferIndex = c3state.activeBufferIndex ∧
       (pauseAudio [silence2s] 1 c3state).pauseOffset = 1 - c3state.startTime) ∧
     (silence2s.duration < 1 - c3state.startTime →
       (pauseAudio [silence2s] 1 c3state).activeBufferIndex = c3state.activeBufferIndex + 1 ∧
       (pauseAudio [silence2s] 1 c3state).pauseOffset = 0)) :=
  ⟨rfl, rfl, by norm_num [c3state, playSegment, initState],
   pause_offset_clamped [silence2s] c3state 1 silence2s rfl rfl
     (by norm_num [c3state, playSegment, initState])⟩

/-- Claim C7: at most one export job can be active at a time — whenever
`isExporting` is already true, a second `handleExportVideo` request is a
strict no-op: the whole application state (the first job's recorder, its
accumulated chunks, and the playback engine state) is unchanged. -/
theorem export_reentry_noop (hasContainer : Bool) (tut : Option TutorialData)
    (renderOk : Nat → Bool) (recData : Nat) (app : AppState)
    (h : app.isExporting = true) :
    handleExportVideo hasContainer tut renderOk recData app = app := by
  unfold handleExportVideo
  rw [h]
  simp

def c7app : AppState :=
  { engine := initState, isExporting := true, recorder := RecorderState.recording,
    chunks := [], delivered := none }

def c7data : TutorialData :=
  { title := "t", language := "py", code := "c", overview := "o",
    steps := [{ lineCode := "l", explanation := "e" }] }

theorem export_reentry_noop_witness :
    c7app.isExporting = true ∧
    handleExportVideo true (some c7data) (fun _ => true) 3 c7app = c7app :=
  ⟨rfl, export_reentry_noop true (some c7data) (fun _ => true) 3 c7app rfl⟩

/-- Claim C9: a transport operation that consumes a missing or out-of-range
segment index is a guarded transition to the Ended state (index 0, offset 0,
not playing) and never crashes: playSegment with an out-of-range index is
exactly the Ended reset; pauseAudio without a live source is a guarded no-op;
play on a state whose active index is out of range (as produced by pause()'s
boundary advance past the last segment) is the Ended reset; and pauseAudio on
a live source whose buffer is missing treats the duration as 0 (`?.duration
|| 0`), advances past it without crashing, after which play transitions to
Ended. -/
theorem out_of_range_index_guarded (bufs : List AudioBuffer) (s : EngineState)
    (i : Nat) (off t t' : ℚ) (hi : bufs.length ≤ i) :
    playSegment bufs i off t s = endedReset s ∧
    (endedReset s).isPlaying = false ∧
    (endedReset s).activeBufferIndex = 0 ∧
    (endedReset s).currentStepIndex = 0 ∧
    (endedReset s).pauseOffset = 0 ∧
    (s.audioSource = none → pauseAudio bufs t s = s) ∧
    (bufs.length ≤ s.activeBufferIndex → playAudio bufs t s = endedReset s) ∧
    (s.audioSource ≠ none → bufs.get? s.activeBufferIndex = none → s.startTime < t →
      (pauseAudio bufs t s).isPlaying = false ∧
      (pauseAudio bufs t s).activeBufferIndex = s.activeBufferIndex + 1 ∧
      playAudio bufs t' (pauseAudio bufs t s) = endedReset (pauseAudio bufs t s)) := by
  refine ⟨by simp [playSegment, endedReset, hi], rfl, rfl, rfl, rfl, ?_, ?_, ?_⟩
  · intro hnone
    unfold pauseAudio
    rw [hnone]
  · intro habi
    unfold playAudio
    simp [playSegment, endedReset, habi]
  · intro hsome hmiss hlt
    obtain ⟨sid, hs⟩ := Option.ne_none_iff_exists'.mp hsome
    have hlen : bufs.length ≤ s.activeBufferIndex := List.get?_eq_none.mp hmiss
    unfold pauseAudio
    rw [hs]
    simp only [hmiss, Option.map_none', Option.getD_none]
    rw [if_pos (by linarith : (0 : ℚ) < t - s.startTime)]
    refine ⟨rfl, rfl, ?_⟩
    unfold playAudio
    apply if_pos
    show bufs.length ≤ s.activeBufferIndex + 1
    omega

theorem out_of_range_index_guarded_witness :
    ([] : List AudioBuffer).length ≤ 0 ∧
    (playSegment [] 0 0 1 initState = endedReset initState ∧
     (endedReset initState).isPlaying = false ∧
     (endedReset initState).activeBufferIndex = 0 ∧
     (endedReset initState).currentStepIndex = 0 ∧
     (endedReset initState).pauseOffset = 0 ∧
     (initState.audioSource = none → pauseAudio [] 1 initState = initState) ∧
     (([] : List AudioBuffer).length ≤ initState.activeBufferIndex →
        playAudio [] 1 initState = endedReset initState) ∧
     (initState.audioSource ≠ none →
        ([] : List AudioBuffer).get? initState.activeBufferIndex = none →
        initState.startTime < 1 →
        (pauseAudio [] 1 initState).isPlaying = false ∧
        (pauseAudio [] 1 initState).activeBufferIndex = initState.activeBufferIndex + 1 ∧
        playAudio [] 2 (pauseAudio [] 1 initState) =
          endedReset (pauseAudio [] 1 initState))) :=
  ⟨Nat.le_refl 0, out_of_range_index_guarded [] initState 0 0 1 2 (Nat.le_refl 0)⟩

/-- Claim C10: a base64 payload that decodes to an odd number of bytes makes
createAudioBufferFromPCM throw (the Int16Array view over the byte buffer
cannot be constructed — the `oddByteLength` error models that RangeError)
rather than produce a buffer. -/
theorem odd_byte_length_throws (str : String) (bs : List Nat)
    (hdec : atob str = some bs) (hodd : bs.length % 2 = 1) :
    createAudioBufferFromPCM str 24000 = .error PCMError.oddByteLength := by
  unfold createAudioBufferFromPCM
  rw [hdec]
  simp [hodd]

theorem odd_byte_length_throws_witness :
    atob ("AA==") = some [0] ∧ ([0] : List Nat).length % 2 = 1 ∧
    createAudioBufferFromPCM ("AA==") 24000 = .error PCMError.oddByteLength :=
  ⟨by decide, rfl, odd_byte_length_throws ("AA==") [0] (by decide) rfl⟩

/-! ## The natural completion run (claim C2) -/

theorem playSegment_playing (bufs : List AudioBuffer) (j : Nat) (t : ℚ)
    (s : EngineState) (hj : j < bufs.length) (hpo : s.pauseOffset = 0) :
    PlayingShape j (playSegment bufs j 0 t s) := by
  unfold playSegment
  rw [if_neg (by omega : ¬ bufs.length ≤ j)]
  exact ⟨rfl, rfl, rfl, hpo, rfl⟩

theorem naturalEnd_of_playing (bufs : List AudioBuffer) (t : ℚ) (j : Nat)
    (s : EngineState) (h : PlayingShape j s) :
    naturalEnd bufs t s = playSegment bufs (j + 1) 0 t s := by
  obtain ⟨_, habi, _, _, hsome⟩ := h
  obtain ⟨sid, hs⟩ := Option.isSome_iff_exists.mp hsome
  unfold naturalEnd
  rw [hs]
  simp [stepE, hs, habi]

theorem playSegment_past_end (bufs : List AudioBuffer) (j : Nat) (off t : ℚ)
    (s : EngineState) (hj : bufs.length ≤ j) :
    EndedShape (playSegment bufs j off t s) := by
  unfold playSegment
  rw [if_pos hj]
  exact ⟨rfl, rfl, rfl, rfl⟩

/-- Shape of the state after `k` of the `ts`-scheduled natural completions,
starting while playing segment `j` of an `N = bufs.length` segment timeline
with exactly `N - j` completions left: below the end the engine is playing
segment `j + k`, and at the end it is Ended. -/
theorem completions_shape (bufs : List AudioBuffer) :
    ∀ (ts : List ℚ) (j k : Nat) (s : EngineState),
      PlayingShape j s → j < bufs.length → k ≤ ts.length →
      j + ts.length = bufs.length →
      ((j + k < bufs.length →
          PlayingShape (j + k) (runCompletions bufs (ts.take k) s)) ∧
       (j + k = bufs.length →
          EndedShape (runCompletions bufs (ts.take k) s)))
  | [], j, k, s, hshape, hj, hk, hlen => by
    exact absurd hlen (by simpa using Nat.ne_of_lt hj)
  | t :: ts', j, 0, s, hshape, hj, hk, hlen => by
    constructor
    · intro _
      simpa using hshape
    · intro habs
      omega
  | t :: ts', j, k' + 1, s, hshape, hj, hk, hlen => by
    have hne := naturalEnd_of_playing bufs t j s hshape
    have hpo0 : s.pauseOffset = 0 := hshape.2.2.2.1
    by_cases hj1 : j + 1 < bufs.length
    · have hshape1 : PlayingShape (j + 1) (playSegment bufs (j + 1) 0 t s) :=
        playSegment_playing bufs (j + 1) t s hj1 hpo0
      have ih := completions_shape bufs ts' (j + 1) k'
        (playSegment bufs (j + 1) 0 t s) hshape1 hj1
        (by simp at hk; omega)
        (by simp at hlen; omega)
      constructor
      · intro hlt
        have h1 := ih.1 (by omega)
        have : j + (k' + 1) = (j + 1) + k' := by omega
        rw [this]
        simpa [runCompletions, hne] using h1
      · intro heq
        have h2 := ih.2 (by omega)
        simpa [runCompletions, hne] using h2
    · have hj1' : bufs.length ≤ j + 1 := by omega
      have hts0 : ts'.length = 0 := by simp at hlen; omega
      have hk0 : k' = 0 := by simp at hk; omega
      subst hk0
      obtain rfl : ts' = [] := List.length_eq_zero.mp hts0
      constructor
      · intro hlt
        omega
      · intro _
        have hend := playSegment_past_end bufs (j + 1) 0 t s hj1'
        simpa [runCompletions, hne] using hend

/-- Claim C2: starting play from Idle at segment 0 and letting each segment
complete naturally advances the active segment index 0, 1, ..., N-1 in order,
and the Nth completion (past the last segment) leaves the engine Ended:
activeSegmentIndex 0, pause offset 0, isPlaying false — so a subsequent
play() is exactly playSegment(0, 0), restarting the whole sequence from
segment 0 rather than replaying the last segment. -/
theorem natural_completion_run (bufs : List AudioBuffer) (ts : List ℚ) (t0 : ℚ)
    (hN : 0 < bufs.length) (hts : ts.length = bufs.length) :
    (∀ k, k < bufs.length →
       PlayingShape k (runCompletions bufs (ts.take k) (playSegment bufs 0 0 t0 initState))) ∧
    EndedShape (runCompletions bufs ts (playSegment bufs 0 0 t0 initState)) ∧
    (∀ t, playAudio bufs t (runCompletions bufs ts (playSegment bufs 0 0 t0 initState)) =
            playSegment bufs 0 0 t (runCompletions bufs ts (playSegment bufs 0 0 t0 initState)) ∧
          (playAudio bufs t (runCompletions bufs ts (playSegment bufs 0 0 t0 initState))).isPlaying = true ∧
          (playAudio bufs t (runCompletions bufs ts (playSegment bufs 0 0 t0 initState))).activeBufferIndex = 0) := by
  have hshape0 : PlayingShape 0 (playSegment bufs 0 0 t0 initState) :=
    playSegment_playing bufs 0 t0 initState hN rfl
  have hended : EndedShape (runCompletions bufs ts (playSegment bufs 0 0 t0 initState)) := by
    have h := (completions_shape bufs ts 0 ts.length (playSegment bufs 0 0 t0 initState)
      hshape0 hN (le_refl _) (by omega)).2 (by omega)
    rwa [List.take_length] at h
  refine ⟨?_, hended, ?_⟩
  · intro k hk
    have h := (completions_shape bufs ts 0 k (playSegment bufs 0 0 t0 initState)
      hshape0 hN (by omega) (by omega)).1 (by omega)
    simpa using h
  · intro t
    obtain ⟨hp, habi, hcsi, hpo⟩ := hended
    have heq : playAudio bufs t (runCompletions bufs ts (playSegment bufs 0 0 t0 initState)) =
        playSegment bufs 0 0 t (runCompletions bufs ts (playSegment bufs 0 0 t0 initState)) := by
      unfold playAudio
      rw [habi, hpo]
    have hpl := playSegment_playing bufs 0 t
      (runCompletions bufs ts (playSegment bufs 0 0 t0 initState)) hN hpo
    rw [heq]
    exact ⟨rfl, hpl.1, hpl.2.1⟩

def c2bufs : List AudioBuffer := [silence2s, silence2s]

theorem natural_completion_run_witness :
    0 < c2bufs.length ∧ ([1, 2] : List ℚ).length = c2bufs.length ∧
    ((∀ k, k < c2bufs.length →
        PlayingShape k (runCompletions c2bufs (([1, 2] : List ℚ).take k)
          (playSegment c2bufs 0 0 0 initState))) ∧
     EndedShape (runCompletions c2bufs [1, 2] (playSegment c2bufs 0 0 0 initState)) ∧
     (∀ t, playAudio c2bufs t (runCompletions c2bufs [1, 2] (playSegment c2bufs 0 0 0 initState)) =
             playSegment c2bufs 0 0 t (runCompletions c2bufs [1, 2] (playSegment c2bufs 0 0 0 initState)) ∧
           (playAudio c2bufs t (runCompletions c2bufs [1, 2] (playSegment c2bufs 0 0 0 initState))).isPlaying = true ∧
           (playAudio c2bufs t (runCompletions c2bufs [1, 2] (playSegment c2bufs 0 0 0 initState))).activeBufferIndex = 0)) :=
  ⟨Nat.zero_lt_two, rfl, natural_completion_run c2bufs [1, 2] 0 Nat.zero_lt_two rfl⟩

/-! ## Decoder arithmetic (claims C5 / C10) -/

theorem int16OfBytes_length : ∀ (bs : List Nat),
    (int16OfBytes bs).length = bs.length / 2
  | [] => rfl
  | [x] => by
    have h0 : int16OfBytes [x] = [] := rfl
    simp [h0]
  | lo :: hi :: rest => by
    simp only [int16OfBytes, List.length_cons, int16OfBytes_length rest]
    omega

theorem int16OfBytes_get? : ∀ (bs : List Nat) (i : Nat),
    (int16OfBytes bs).get? i =
      (bs.get? (2 * i)).bind (fun lo =>
        (bs.get? (2 * i + 1)).map (fun hi => toSigned16 (lo + 256 * hi)))
  | [], i => by simp [int16OfBytes]
  | [b], i => by
    have h0 : int16OfBytes [b] = [] := rfl
    cases i with
    | zero => simp [h0]
    | succ j =>
      rw [h0, show 2 * (j + 1) = 2 * j + 1 + 1 by omega]
      simp
  | lo :: hi :: rest, 0 => by simp [int16OfBytes]
  | lo :: hi :: rest, i + 1 => by
    have h := int16OfBytes_get? rest i
    simp only [int16OfBytes, List.get?_cons_succ, h,
      show 2 * (i + 1) = 2 * i + 1 + 1 by omega]

theorem int16OfBytes_mem : ∀ (bs : List Nat) (v : Int), v ∈ int16OfBytes bs →
    ∃ lo hi, lo ∈ bs ∧ hi ∈ bs ∧ v = toSigned16 (lo + 256 * hi)
  | [], v, hv => by simp [int16OfBytes] at hv
  | [_], v, hv => by simp [int16OfBytes] at hv
  | lo :: hi :: rest, v, hv => by
    rcases List.mem_cons.mp hv with h | h
    · exact ⟨lo, hi, by simp, by simp, h⟩
    · obtain ⟨lo', hi', h1, h2, h3⟩ := int16OfBytes_mem rest v h
      exact ⟨lo', hi', by simp [h1], by simp [h2], h3⟩

theorem toSigned16_bounds (n : Nat) (h : n < 65536) :
    -32768 ≤ toSigned16 n ∧ toSigned16 n ≤ 32767 := by
  unfold toSigned16
  split <;> omega

theorem b64CharVal_lt (c : Char) (v : Nat) (h : b64CharVal c = some v) : v < 64 := by
  simp only [b64CharVal] at h
  split_ifs at h <;> simp_all <;> omega

theorem mapOpt_mem_of_mem {f : α → Option β} : ∀ (l : List α) (bs : List β),
    mapOpt f l = some bs → ∀ b ∈ bs, ∃ a ∈ l, f a = some b
  | [], bs, h => by
    simp only [mapOpt, Option.some.injEq] at h
    subst h
    intro b hb
    simp at hb
  | a :: as, bs, h => by
    unfold mapOpt at h
    cases hfa : f a with
    | none => rw [hfa] at h; exact absurd h (by simp)
    | some b0 =>
      rw [hfa] at h
      cases hrec : mapOpt f as with
      | none => rw [hrec] at h; exact absurd h (by simp)
      | some bs0 =>
        rw [hrec] at h
        simp only [Option.some.injEq] at h
        subst h
        intro b hb
        rcases List.mem_cons.mp hb with rfl | hmem
        · exact ⟨a, by simp, hfa⟩
        · obtain ⟨a', ha', hfa'⟩ := mapOpt_mem_of_mem as bs0 hrec b hmem
          exact ⟨a', by simp [ha'], hfa'⟩

theorem b64Bytes_lt : ∀ (vs : List Nat), (∀ v ∈ vs, v < 64) →
    ∀ b ∈ b64Bytes vs, b < 256
  | [], _, b, hb => by simp [b64Bytes] at hb
  | [_], _, b, hb => by simp [b64Bytes] at hb
  | [a, b0], hvs, b, hb => by
    simp only [b64Bytes, List.mem_singleton] at hb
    have ha := hvs a (by simp)
    have hb0 := hvs b0 (by simp)
    omega
  | [a, b0, c], hvs, b, hb => by
    simp only [b64Bytes, List.mem_cons, List.mem_singleton, List.not_mem_nil,
      or_false] at hb
    have ha := hvs a (by simp)
    have hb0 := hvs b0 (by simp)
    have hc := hvs c (by simp)
    rcases hb with rfl | rfl
    · omega
    · omega
  | a :: b0 :: c :: d :: rest, hvs, b, hb => by
    simp only [b64Bytes, List.mem_cons] at hb
    have ha := hvs a (by simp)
    have hb0 := hvs b0 (by simp)
    have hc := hvs c (by simp)
    have hd := hvs d (by simp)
    rcases hb with rfl | rfl | rfl | h
    · omega
    · omega
    · omega
    · exact b64Bytes_lt rest (fun v hv => hvs v (by simp [hv])) b h

/-- Every byte produced by `atob` is an actual byte value. -/
theorem atob_bytes_lt (s : String) (bs : List Nat) (h : atob s = some bs) :
    ∀ b ∈ bs, b < 256 := by
  simp only [atob] at h
  set cs0 := s.toList.filter (fun c => !isB64Ws c) with hcs0
  set cs := if cs0.length % 4 = 0 then stripPadding cs0 else cs0 with hcs
  by_cases h1 : cs.length % 4 = 1
  · rw [if_pos h1] at h
    exact absurd h (by simp)
  · rw [if_neg h1] at h
    cases hmap : mapOpt b64CharVal cs with
    | none => rw [hmap] at h; exact absurd h (by simp)
    | some vs =>
      rw [hmap] at h
      simp only [Option.some.injEq] at h
      subst h
      refine b64Bytes_lt vs ?_
      intro v hv
      obtain ⟨c, _, hc⟩ := mapOpt_mem_of_mem cs vs hmap v hv
      exact b64CharVal_lt c v hc

/-- Claim C5 counterexample: the empty string is a valid base64 payload
(atob accepts it, yielding 2·0 bytes), but the decoder does not return a
0-sample buffer — `ctx.createBuffer(1, 0, 24000)` throws (NotSupportedError),
modelled by the `emptyBuffer` error. -/
theorem decoder_zero_length_counterexample :
    atob ("") = some [] ∧ ([] : List Nat).length = 2 * 0 ∧
    createAudioBufferFromPCM ("") 24000 = .error PCMError.emptyBuffer :=
  ⟨rfl, rfl, rfl⟩

/-- Claim C5 (amended): for every valid base64 string encoding 2k bytes of
16-bit signed little-endian mono PCM with k ≥ 1, the decoder produces a
buffer of exactly k samples, where sample i equals the signed 16-bit value of
byte pair (2i, 2i+1) divided by 32768 and therefore lies in [-1, 1]. (For
k = 0 the zero-length buffer allocation throws instead.) -/
theorem decoder_even_nonempty_payload (str : String) (bs : List Nat) (k : Nat)
    (hdec : atob str = some bs) (hlen : bs.length = 2 * k) (hk : 1 ≤ k) :
    ∃ buf, createAudioBufferFromPCM str 24000 = .ok buf ∧
      buf.samples.length = k ∧ buf.sampleRate = 24000 ∧ buf.numberOfChannels = 1 ∧
      (∀ i, i < k → ∃ lo hi, bs.get? (2 * i) = some lo ∧ bs.get? (2 * i + 1) = some hi ∧
        buf.samples.get? i = some ((toSigned16 (lo + 256 * hi) : ℚ) / 32768)) ∧
      (∀ q ∈ buf.samples, -1 ≤ q ∧ q ≤ 1) := by
  have hmod : ¬ bs.length % 2 = 1 := by omega
  have hil : (int16OfBytes bs).length = k := by
    rw [int16OfBytes_length, hlen]
    omega
  have hne : ¬ (int16OfBytes bs).length = 0 := by omega
  have hbuf : createAudioBufferFromPCM str 24000 =
      .ok { numberOfChannels := 1,
            samples := (int16OfBytes bs).map (fun (v : Int) => (v : ℚ) / 32768),
            sampleRate := 24000 } := by
    simp only [createAudioBufferFromPCM, hdec]
    rw [if_neg hmod, if_neg hne]
  refine ⟨_, hbuf, ?_, rfl, rfl, ?_, ?_⟩
  · simpa using hil
  · intro i hi
    have h0 : 2 * i < bs.length := by omega
    have h1 : 2 * i + 1 < bs.length := by omega
    cases hget0 : bs.get? (2 * i) with
    | none => exact absurd (List.get?_eq_none.mp hget0) (by omega)
    | some lo =>
      cases hget1 : bs.get? (2 * i + 1) with
      | none => exact absurd (List.get?_eq_none.mp hget1) (by omega)
      | some hi2 =>
        refine ⟨lo, hi2, rfl, rfl, ?_⟩
        show ((int16OfBytes bs).map (fun (v : Int) => (v : ℚ) / 32768)).get? i = _
        rw [List.get?_map, int16OfBytes_get?, hget0, hget1]
        rfl
  · intro q hq
    simp only [List.mem_map] at hq
    obtain ⟨v, hv, rfl⟩ := hq
    obtain ⟨lo, hi2, hlomem, himem, rfl⟩ := int16OfBytes_mem bs v hv
    have hlo256 := atob_bytes_lt str bs hdec lo hlomem
    have hhi256 := atob_bytes_lt str bs hdec hi2 himem
    have hbound := toSigned16_bounds (lo + 256 * hi2) (by omega)
    have hlow : (-32768 : ℚ) ≤ ((toSigned16 (lo + 256 * hi2) : Int) : ℚ) := by
      exact_mod_cast hbound.1
    have hhigh : ((toSigned16 (lo + 256 * hi2) : Int) : ℚ) ≤ 32767 := by
      exact_mod_cast hbound.2
    constructor
    · rw [le_div_iff (by norm_num : (0 : ℚ) < 32768)]
      linarith
    · rw [div_le_one (by norm_num : (0 : ℚ) < 32768)]
      linarith

theorem decoder_even_nonempty_payload_witness :
    atob ("AAD/fw==") = some [0, 0, 255, 127] ∧
    ([0, 0, 255, 127] : List Nat).length = 2 * 2 ∧ 1 ≤ 2 ∧
    (∃ buf, createAudioBufferFromPCM ("AAD/fw==") 24000 = .ok buf ∧
      buf.samples.length = 2 ∧ buf.sampleRate = 24000 ∧ buf.numberOfChannels = 1 ∧
      (∀ i, i < 2 → ∃ lo hi,
        ([0, 0, 255, 127] : List Nat).get? (2 * i) = some lo ∧
        ([0, 0, 255, 127] : List Nat).get? (2 * i + 1) = some hi ∧
        buf.samples.get? i = some ((toSigned16 (lo + 256 * hi) : ℚ) / 32768)) ∧
      (∀ q ∈ buf.samples, -1 ≤ q ∧ q ≤ 1)) :=
  ⟨by decide, rfl, by norm_num,
   decoder_even_nonempty_payload ("AAD/fw==") [0, 0, 255, 127] 2 (by decide) rfl
     (by norm_num)⟩

/-! ## Segment registry facts (claims C4 / C6) -/

theorem buildBuffers_ok_length : ∀ (l : List (Option String)) (bs : List AudioBuffer),
    buildBuffers l = .ok bs → bs.length = l.length
  | [], bs, h => by
    simp only [buildBuffers, Except.ok.injEq] at h
    simp [← h]
  | ob :: rest, bs, h => by
    unfold buildBuffers at h
    cases hsb : segmentBuffer ob with
    | error e => rw [hsb] at h; exact absurd h (by simp)
    | ok b =>
      rw [hsb] at h
      cases hbb : buildBuffers rest with
      | error e => rw [hbb] at h; exact absurd h (by simp)
      | ok bs' =>
        rw [hbb] at h
        simp only [Except.ok.injEq] at h
        subst h
        simp [buildBuffers_ok_length rest bs' hbb]

theorem buildBuffers_ok_get? : ∀ (l : List (Option String)) (bs : List AudioBuffer),
    buildBuffers l = .ok bs → ∀ (i : Nat) (ob : Option String), l.get? i = some ob →
      ∃ b, segmentBuffer ob = .ok b ∧ bs.get? i = some b
  | [], bs, h, i, ob, hg => by simp at hg
  | ob0 :: rest, bs, h, i, ob, hg => by
    unfold buildBuffers at h
    cases hsb : segmentBuffer ob0 with
    | error e => rw [hsb] at h; exact absurd h (by simp)
    | ok b =>
      rw [hsb] at h
      cases hbb : buildBuffers rest with
      | error e => rw [hbb] at h; exact absurd h (by simp)
      | ok bs' =>
        rw [hbb] at h
        simp only [Except.ok.injEq] at h
        subst h
        cases i with
        | zero =>
          simp only [List.get?_cons_zero, Option.some.injEq] at hg
          subst hg
          exact ⟨b, hsb, rfl⟩
        | succ j =>
          simp only [List.get?_cons_succ] at hg
          obtain ⟨b', hsb', hget'⟩ := buildBuffers_ok_get? rest bs' hbb j ob hg
          exact ⟨b', hsb', by simpa using hget'⟩

/-- Claim C4: for a tutorial document with N-1 steps, segment generation
produces exactly N payload slots (index 0 the overview, index i+1 step i's
explanation, in document order); a synthesis failure or empty payload at any
slot i (a `none` payload: thrown TTS error, missing inline data, or a payload
collapsed by `|| null`) is replaced in handleSubmit by the fixed silence
buffer — 2 seconds of zeros at 24000 Hz — while a successfully decoded slot i
keeps exactly its own decoded buffer; neither the segment count nor the
position of any other segment changes. -/
theorem segments_count_and_silence_fallback (tts : String → Option String)
    (data : TutorialData) (bufs : List AudioBuffer)
    (h : buildBuffers (generateAudioSegments tts data) = .ok bufs) :
    (generateAudioSegments tts data).length = data.steps.length + 1 ∧
    bufs.length = data.steps.length + 1 ∧
    (generateAudioSegments tts data).get? 0 = some (ttsPayload tts data.overview) ∧
    (∀ i st, data.steps.get? i = some st →
       (generateAudioSegments tts data).get? (i + 1) = some (ttsPayload tts st.explanation)) ∧
    (∀ txt, tts txt = some ("") → ttsPayload tts txt = none) ∧
    silence2s.sampleRate = 24000 ∧ silence2s.samples.length = 2 * 24000 ∧
    silence2s.duration = 2 ∧ (∀ q ∈ silence2s.samples, q = 0) ∧
    (∀ i, (generateAudioSegments tts data).get? i = some none →
       bufs.get? i = some silence2s) ∧
    (∀ i b64 b, (generateAudioSegments tts data).get? i = some (some b64) →
       createAudioBufferFromPCM b64 24000 = .ok b → bufs.get? i = some b) := by
  have hlen : (generateAudioSegments tts data).length = data.steps.length + 1 := by
    simp [generateAudioSegments]
  refine ⟨hlen, ?_, ?_, ?_, ?_, rfl, ?_, ?_, ?_, ?_, ?_⟩
  · rw [buildBuffers_ok_length _ _ h, hlen]
  · simp [generateAudioSegments]
  · intro i st hst
    show ((data.overview :: data.steps.map (fun st => st.explanation)).map
        (ttsPayload tts)).get? (i + 1) = _
    rw [List.get?_map, List.get?_cons_succ, List.get?_map, hst]
    rfl
  · intro txt htxt
    simp [ttsPayload, htxt]
  · show (List.replicate (2 * 24000) (0 : ℚ)).length = 2 * 24000
    exact List.length_replicate _ _
  · norm_num [silence2s, AudioBuffer.duration]
  · intro q hq
    exact List.eq_of_mem_replicate hq
  · intro i hi
    obtain ⟨b, hsb, hget⟩ := buildBuffers_ok_get? _ _ h i none hi
    have hb : b = silence2s := by
      simp only [segmentBuffer, Except.ok.injEq] at hsb
      exact hsb.symm
    rw [← hb]
    exact hget
  · intro i b64 b hg hc
    obtain ⟨b', hsb, hget⟩ := buildBuffers_ok_get? _ _ h i (some b64) hg
    by_cases hemp : b64 = ""
    · subst hemp
      rw [show createAudioBufferFromPCM ("") 24000 = .error PCMError.emptyBuffer from rfl] at hc
      exact absurd hc (by simp)
    · simp only [segmentBuffer, if_neg hemp] at hsb
      rw [hsb] at hc
      simp only [Except.ok.injEq] at hc
      rw [← hc]
      exact hget

def c4tts : String → Option String := fun t => if t = "ov" then none else some ("AAD/fw==")

def c4data : TutorialData :=
  { title := "t", language := "py", code := "c", overview := "ov",
    steps := [{ lineCode := "l", explanation := "ex" }] }

def c4bufs : List AudioBuffer :=
  (buildBuffers (generateAudioSegments c4tts c4data)).toOption.getD []

theorem segments_count_and_silence_fallback_witness :
    buildBuffers (generateAudioSegments c4tts c4data) = .ok c4bufs ∧
    ((generateAudioSegments c4tts c4data).length = c4data.steps.length + 1 ∧
     c4bufs.length = c4data.steps.length + 1 ∧
     (generateAudioSegments c4tts c4data).get? 0 = some (ttsPayload c4tts c4data.overview) ∧
     (∀ i st, c4data.steps.get? i = some st →
        (generateAudioSegments c4tts c4data).get? (i + 1) = some (ttsPayload c4tts st.explanation)) ∧
     (∀ txt, c4tts txt = some ("") → ttsPayload c4tts txt = none) ∧
     silence2s.sampleRate = 24000 ∧ silence2s.samples.length = 2 * 24000 ∧
     silence2s.duration = 2 ∧ (∀ q ∈ silence2s.samples, q = 0) ∧
     (∀ i, (generateAudioSegments c4tts c4data).get? i = some none →
        c4bufs.get? i = some silence2s) ∧
     (∀ i b64 b, (generateAudioSegments c4tts c4data).get? i = some (some b64) →
        createAudioBufferFromPCM b64 24000 = .ok b → c4bufs.get? i = some b)) :=
  ⟨rfl, segments_count_and_silence_fallback c4tts c4data c4bufs rfl⟩

/-- Claim C6 counterexample: a segment whose payload is malformed base64
(here the single-segment payload list `[some "%%"]`) is not substituted with
silence — handleSubmit's buffer stage rejects and the submission ends in the
fatal ERROR state, contradicting the claim that a decode failure is handled
identically to a synthesis failure and never surfaced as fatal. -/
theorem decode_failure_fatal_counterexample :
    submitOutcome [some ("%%")] = SubmitOutcome.fatalError ∧
    submitOutcome [some ("%%")] ≠ SubmitOutcome.ready [silence2s] := by
  constructor
  · rfl
  · intro hcontra
    rw [show submitOutcome [some ("%%")] = SubmitOutcome.fatalError from rfl] at hcontra
    exact SubmitOutcome.noConfusion hcontra

/-- Claim C6 (amended): a malformed base64 payload makes the decode step fail
with an error (atob's InvalidCharacterError, a rejected promise rather than a
crash), but the caller does not treat it like a synthesis failure: no silence
is substituted — the rejection propagates through `Promise.all` to
handleSubmit's catch and the whole submission is surfaced to the user as a
fatal error. -/
theorem decode_failure_propagates_fatal (pre rest : List (Option String))
    (bs : List AudioBuffer) (bad : String)
    (hpre : buildBuffers pre = .ok bs) (hbad : bad ≠ "") (hdec : atob bad = none) :
    buildBuffers (pre ++ some bad :: rest) = .error PCMError.malformedBase64 ∧
    submitOutcome (pre ++ some bad :: rest) = SubmitOutcome.fatalError := by
  have hbadbuf : segmentBuffer (some bad) = .error PCMError.malformedBase64 := by
    simp only [segmentBuffer, if_neg hbad]
    unfold createAudioBufferFromPCM
    rw [hdec]
  have hmain : ∀ (p : List (Option String)) (b : List AudioBuffer),
      buildBuffers p = .ok b →
      buildBuffers (p ++ some bad :: rest) = .error PCMError.malformedBase64 := by
    intro p
    induction p with
    | nil =>
      intro b _
      simp only [List.nil_append]
      unfold buildBuffers
      rw [hbadbuf]
    | cons ob p' ih =>
      intro b h0
      unfold buildBuffers at h0
      cases hsb : segmentBuffer ob with
      | error e => rw [hsb] at h0; exact absurd h0 (by simp)
      | ok b0 =>
        rw [hsb] at h0
        cases hbb : buildBuffers p' with
        | error e => rw [hbb] at h0; exact absurd h0 (by simp)
        | ok bs' =>
          show buildBuffers (ob :: (p' ++ some bad :: rest)) = _
          unfold buildBuffers
          rw [hsb, ih bs' hbb]
  have h1 := hmain pre bs hpre
  refine ⟨h1, ?_⟩
  unfold submitOutcome
  rw [h1]

theorem decode_failure_propagates_fatal_witness :
    buildBuffers [none] = .ok [silence2s] ∧ ("%%" : String) ≠ "" ∧
    atob ("%%") = none ∧
    (buildBuffers ([none] ++ some ("%%") :: []) = .error PCMError.malformedBase64 ∧
     submitOutcome ([none] ++ some ("%%") :: []) = SubmitOutcome.fatalError) :=
  ⟨rfl, by decide, by decide,
   decode_failure_propagates_fatal [none] [] [silence2s] ("%%") rfl (by decide) (by decide)⟩

/-! ## Export failure semantics (claim C8) -/

theorem exportSteps_fail (renderOk : Nat → Bool) :
    ∀ (pre : List Nat) (i : Nat) (rest : List Nat) (st : AppState),
      (∀ j ∈ pre, renderOk j = true) → renderOk i = false →
      exportSteps renderOk (pre ++ i :: rest) st =
        .error { st with engine := { st.engine with currentStepIndex := i },
                         recorder := RecorderState.paused }
  | [], i, rest, st, _, hfail => by
    show exportSteps renderOk (i :: rest) st = _
    unfold exportSteps
    rw [hfail]
    rfl
  | p :: pre', i, rest, st, hpre, hfail => by
    show exportSteps renderOk (p :: (pre' ++ i :: rest)) st = _
    unfold exportSteps
    rw [hpre p (by simp)]
    dsimp only
    exact exportSteps_fail renderOk pre' i rest _
      (fun j hj => hpre j (by simp [hj])) hfail

theorem exportSteps_ok (renderOk : Nat → Bool) :
    ∀ (pre : List Nat) (last : Nat) (st : AppState),
      (∀ j ∈ pre ++ [last], renderOk j = true) →
      exportSteps renderOk (pre ++ [last]) st =
        .ok { st with engine := { st.engine with currentStepIndex := last },
                      recorder := RecorderState.recording }
  | [], last, st, hok => by
    show exportSteps renderOk [last] st = _
    unfold exportSteps
    rw [hok last (by simp)]
    rfl
  | p :: pre', last, st, hok => by
    show exportSteps renderOk (p :: (pre' ++ [last])) st = _
    unfold exportSteps
    rw [hok p (by simp)]
    dsimp only
    exact exportSteps_ok renderOk pre' last _ (fun j hj => hok j (by simp [hj]))

def c8app : AppState :=
  { engine := initState, isExporting := false, recorder := RecorderState.inactive,
    chunks := [], delivered := none }

def c8data : TutorialData :=
  { title := "t", language := "py", code := "c", overview := "o",
    steps := [{ lineCode := "l", explanation := "e" }] }

def c8renderOk : Nat → Bool := fun i => i == 0

/-- Claim C8 counterexample: with a 2-segment document whose second render
step fails, handleExportVideo performs no cleanup: isExporting stays true
(the job never transitions to a terminal failed state), the recorder is left
paused (never stopped), the playback selection stays half-advanced at step 1
instead of being reset to segment 0, and no stop() cleanup runs. -/
theorem export_failure_no_cleanup_counterexample :
    (handleExportVideo true (some c8data) c8renderOk 7 c8app).isExporting = true ∧
    (handleExportVideo true (some c8data) c8renderOk 7 c8app).recorder =
      RecorderState.paused ∧
    (handleExportVideo true (some c8data) c8renderOk 7 c8app).engine.currentStepIndex = 1 ∧
    (handleExportVideo true (some c8data) c8renderOk 7 c8app).delivered = none :=
  ⟨rfl, rfl, rfl, rfl⟩

/-- Claim C8 (amended): a failing step does abort the remaining per-segment
loop, but no cleanup runs: the uncaught rejection leaves `isExporting` true,
the recorder paused (never stopped, so the partial chunks are never flushed
or delivered), the engine as stopAudio left it at export start except that
the selection sits at the failing step's index — stop() is not invoked as
cleanup and the selection is not reset to segment 0. Only when every step
succeeds does the recorder stop and its onstop handler deliver the artifact,
clear isExporting, and reset the selection to segment 0. -/
theorem export_failure_state (app : AppState) (data : TutorialData)
    (renderOk : Nat → Bool) (recData : Nat)
    (hexp : app.isExporting = false) :
    (∀ i, i < data.steps.length + 1 → renderOk i = false →
       (∀ j, j < i → renderOk j = true) →
       handleExportVideo true (some data) renderOk recData app =
         { engine := { stopAudio app.engine with currentStepIndex := i },
           isExporting := true, recorder := RecorderState.paused,
           chunks := app.chunks, delivered := app.delivered }) ∧
    ((∀ j, j < data.steps.length + 1 → renderOk j = true) →
       handleExportVideo true (some data) renderOk recData app =
         { engine := stopAudio app.engine, isExporting := false,
           recorder := RecorderState.inactive, chunks := [recData],
           delivered := some [recData] }) := by
  have hguard : (!true || app.isExporting || (some data).isNone) = false := by
    rw [hexp]
    rfl
  constructor
  · intro i hi hfail hprev
    obtain ⟨m, hm⟩ : ∃ m, data.steps.length + 1 = i + (m + 1) :=
      ⟨data.steps.length - i, by omega⟩
    have hsplit : List.range (data.steps.length + 1) =
        List.range' 0 i ++ i :: List.range' (i + 1) m := by
      rw [List.range_eq_range', hm, show i + (m + 1) = (m + 1) + i by omega,
        ← List.range'_append 0 i (m + 1) 1]
      congr 1
      rw [List.range'_succ]
      norm_num
    unfold handleExportVideo
    rw [hguard]
    dsimp only
    rw [hsplit, exportSteps_fail renderOk (List.range' 0 i) i _ _
      (fun j hj => hprev j (by simpa using (List.mem_range'_1.mp hj).2)) hfail]
    rfl
  · intro hall
    have hsplit : List.range (data.steps.length + 1) =
        List.range data.steps.length ++ [data.steps.length] := List.range_succ _
    unfold handleExportVideo
    rw [hguard]
    dsimp only
    rw [hsplit, exportSteps_ok renderOk (List.range data.steps.length) data.steps.length _
      (fun j hj => by
        rw [← hsplit] at hj
        exact hall j (List.mem_range.mp hj))]
    rfl

theorem export_failure_state_witness :
    c8app.isExporting = false ∧
    ((∀ i, i < c8data.steps.length + 1 → c8renderOk i = false →
        (∀ j, j < i → c8renderOk j = true) →
        handleExportVideo true (some c8data) c8renderOk 7 c8app =
          { engine := { stopAudio c8app.engine with currentStepIndex := i },
            isExporting := true, recorder := RecorderState.paused,
            chunks := c8app.chunks, delivered := c8app.delivered }) ∧
     ((∀ j, j < c8data.steps.length + 1 → c8renderOk j = true) →
        handleExportVideo true (some c8data) c8renderOk 7 c8app =
          { engine := stopAudio c8app.engine, isExporting := false,
            recorder := RecorderState.inactive, chunks := [7],
            delivered := some [7] })) :=
  ⟨rfl, export_failure_state c8app c8data c8renderOk 7 rfl⟩
